import Mathlib

/-!
Verification of the event normalization pipeline in
src/database/load_data.py (functions parse_datetime, parse_location,
insert_events).  The Python string operations are shallowly embedded as
executable functions over List Char.  Python strings are modelled as Lean
strings; regular-expression searches are modelled by deterministic scanners
that implement exactly the leftmost-match semantics of the concrete
patterns used in the source (each greedy element of those patterns is
followed by a character class disjoint from it, so matching is
backtracking-free and the scanner semantics coincide with re.search and
re.sub on these patterns).
-/

namespace LoadData

/-- Whitespace class: models the characters on which Python str.split and
the regex class backslash-s split for the data handled here (ASCII
whitespace plus the no-break space produced by entity decoding). -/
def isWsB (c : Char) : Bool :=
  c = ' ' || c = '\t' || c = '\n' || c = '\r' || c = '\x0b' || c = '\x0c' || c = ' '

/-- The regex class [A-Za-z]. -/
def isAlphaB (c : Char) : Bool :=
  ('A' ≤ c && c ≤ 'Z') || ('a' ≤ c && c ≤ 'z')

/-- The regex class backslash-d restricted to ASCII digits (the scraped
data contains only ASCII digits, so this matches the Python behaviour on
all inputs in the model). -/
def isDigitB (c : Char) : Bool :=
  '0' ≤ c && c ≤ '9'

/-- ASCII lower-casing, modelling str.lower on the data handled here. -/
def lowerC (c : Char) : Char :=
  if 'A' ≤ c && c ≤ 'Z' then Char.ofNat (c.toNat + 32) else c

def lowerL (l : List Char) : List Char := l.map lowerC

def lowerS (s : String) : String := ⟨lowerL s.data⟩

/-- span: longest prefix satisfying p, and the rest.  Models the behaviour
of a greedy character-class element of a regex. -/
def spanP (p : Char → Bool) : List Char → List Char × List Char
  | [] => ([], [])
  | c :: t =>
    if p c then
      let r := spanP p t
      (c :: r.1, r.2)
    else ([], c :: t)

/-- Accumulating worker for whitespace tokenization (str.split with no
argument: split on whitespace runs, dropping empty pieces). -/
def tokAux : List Char → List Char → List (List Char)
  | cur, [] => if cur = [] then [] else [cur.reverse]
  | cur, c :: t =>
    if isWsB c then
      if cur = [] then tokAux [] t else cur.reverse :: tokAux [] t
    else tokAux (c :: cur) t

def tokenizeWs (l : List Char) : List (List Char) := tokAux [] l

/-- The cleaning step shared by both normalizers: collapse whitespace runs
to single spaces and trim, as done by the join-split idiom in the source
(lines 67 and 150). -/
def collapseWs (l : List Char) : List Char :=
  List.intercalate [' '] (tokenizeWs l)

/-- str.strip: remove leading and trailing whitespace. -/
def pyStrip (l : List Char) : List Char :=
  ((l.dropWhile isWsB).reverse.dropWhile isWsB).reverse

/-- Tag stripping, modelling re.sub of the pattern that matches a
less-than sign, one or more characters other than greater-than, and a
greater-than sign, replaced by a single space (lines 65 and 148).  The
first argument buffers the characters of a potential tag currently being
read, in reverse; the pattern cannot match an immediately closed pair, in
which case the two characters are emitted verbatim. -/
def stripTagsGo : Option (List Char) → List Char → List Char
  | none, [] => []
  | none, c :: t =>
    if c = '<' then stripTagsGo (some ['<']) t else c :: stripTagsGo none t
  | some buf, [] => buf.reverse
  | some buf, c :: t =>
    if c = '>' then
      if buf = ['<'] then '<' :: '>' :: stripTagsGo none t
      else ' ' :: stripTagsGo none t
    else stripTagsGo (some (c :: buf)) t

def stripTags (l : List Char) : List Char := stripTagsGo none l

/-- Modelled from html.unescape restricted to the standard entities that
can occur in the scraped fields; entities outside this table (including
the semicolon-free forms) pass through unchanged.  The full HTML5 named
entity table of the Python standard library is elided. -/
def unescape : List Char → List Char
  | [] => []
  | '&' :: 'a' :: 'm' :: 'p' :: ';' :: t => '&' :: unescape t
  | '&' :: 'l' :: 't' :: ';' :: t => '<' :: unescape t
  | '&' :: 'g' :: 't' :: ';' :: t => '>' :: unescape t
  | '&' :: 'q' :: 'u' :: 'o' :: 't' :: ';' :: t => '"' :: unescape t
  | '&' :: '#' :: '3' :: '9' :: ';' :: t => '\'' :: unescape t
  | '&' :: 'n' :: 'b' :: 's' :: 'p' :: ';' :: t => ' ' :: unescape t
  | '&' :: 'n' :: 'd' :: 'a' :: 's' :: 'h' :: ';' :: t => '–' :: unescape t
  | '&' :: 'm' :: 'd' :: 'a' :: 's' :: 'h' :: ';' :: t => '—' :: unescape t
  | c :: t => c :: unescape t

/-- The cleaning pipeline of parse_datetime lines 65 to 67: strip tags,
decode entities, collapse whitespace. -/
def cleanHtml (l : List Char) : List Char :=
  collapseWs (unescape (stripTags l))

/-! ## Location normalizer (parse_location, lines 123 to 173) -/

/-- One attempt at matching the href pattern (the regex
href=["two quote kinds]([^quotes]+)["two quote kinds]) at the current
position; on success returns the captured URL characters. -/
def hrefAttempt : List Char → Option (List Char)
  | 'h' :: 'r' :: 'e' :: 'f' :: '=' :: q :: t =>
    if q = '"' || q = '\'' then
      let r := spanP (fun c => !(c = '"' || c = '\'')) t
      match r.2 with
      | q2 :: _ => if r.1 ≠ [] && (q2 = '"' || q2 = '\'') then some r.1 else none
      | [] => none
    else none
  | _ => none

/-- Leftmost-match driver: try the attempt at every position from the
left, advancing one character on failure.  Fuel is the remaining number of
positions; the wrappers supply enough fuel for the whole input. -/
def searchGo (att : List Char → Option α) : Nat → List Char → Option α
  | 0, _ => none
  | fuel + 1, l =>
    match att l with
    | some r => some r
    | none =>
      match l with
      | [] => none
      | _ :: t => searchGo att fuel t

def searchIn (att : List Char → Option α) (l : List Char) : Option α :=
  searchGo att (l.length + 1) l

/-- re.findall of the href pattern, keeping the first result (lines 143
to 145). -/
def findHref (s : String) : Option String :=
  (searchIn hrefAttempt s.data).map fun l => ⟨l⟩

/-- One attempt at the zoom-link artifact pattern (whitespace-run, zoom,
whitespace, link, whitespace-run, case-insensitive) at the current
position; on success returns the rest of the input after the match. -/
def zoomAttempt (l : List Char) : Option (List Char) :=
  let r1 := spanP isWsB l
  match lowerL (r1.2.take 4) with
  | ['z', 'o', 'o', 'm'] =>
    let r2 := spanP isWsB (r1.2.drop 4)
    if r2.1 = [] then none
    else
      match lowerL (r2.2.take 4) with
      | ['l', 'i', 'n', 'k'] =>
        let r3 := spanP isWsB (r2.2.drop 4)
        some r3.2
      | _ => none
  | _ => none

/-- re.sub of the zoom-link pattern with the empty replacement (line 153):
replace every non-overlapping leftmost match, scanning left to right. -/
def zoomSubGo : Nat → List Char → List Char
  | 0, l => l
  | _ + 1, [] => []
  | fuel + 1, c :: t =>
    match zoomAttempt (c :: t) with
    | some rest => zoomSubGo fuel rest
    | none => c :: zoomSubGo fuel t

def zoomSub (l : List Char) : List Char := zoomSubGo l.length l

/-- The cleaned location text: lines 148 to 154 (strip tags, decode
entities, collapse whitespace and trim, remove the zoom-link artifact,
trim again). -/
def cleanLocationText (s : String) : String :=
  ⟨pyStrip (zoomSub (pyStrip (cleanHtml s.data)))⟩

/-- List prefix test. -/
def startsWithL : List Char → List Char → Bool
  | [], _ => true
  | _ :: _, [] => false
  | p :: ps, c :: cs => p = c && startsWithL ps cs

/-- Contiguous substring test, modelling the Python in operator on
strings. -/
def substrIn (pat : List Char) : List Char → Bool
  | [] => startsWithL pat []
  | c :: t => startsWithL pat (c :: t) || substrIn pat t

/-- Python substring test of line 162: the word online occurs in the
lower-cased text. -/
def containsOnline (s : String) : Bool :=
  substrIn "online".data (lowerL s.data)

/-- The placeholder list of line 157. -/
def placeholders : List String := ["online", "online event", "tbd", ""]

/-- Line 157: the text is truthy and its lower-casing is not a
placeholder. -/
def hasPhysicalLocation (u : String) : Bool :=
  u ≠ "" && !(placeholders.contains (lowerS u))

/-- Classification and final cleanup of parse_location (lines 156 to
173), given the extracted link and the cleaned text. -/
def locResult (link : Option String) (u : String) :
    Option String × Option String × String :=
  let hasLink := link.isSome
  let r :=
    if hasPhysicalLocation u && hasLink then (u, "hybrid")
    else if hasLink || (u ≠ "" && containsOnline u) then
      (if !hasLink && (lowerS u = "online" || lowerS u = "online event")
        then "Online" else u,
       "online")
    else (u, "in_person")
  let t2 : Option String :=
    if r.1 = "" || lowerS r.1 = "online event" then
      if r.2 = "online" then some "Online" else none
    else some r.1
  (t2, link, r.2)

/-- parse_location with the exception channel made explicit: the body
contains no raising operation, so every branch returns normally. -/
def parse_locationE (x : Option String) :
    Except String (Option String × Option String × String) :=
  match x with
  | none => .ok (none, none, "in_person")
  | some s =>
    if s = "" then .ok (none, none, "in_person")
    else .ok (locResult (findHref s) (cleanLocationText s))

def parse_location (x : Option String) :
    Option String × Option String × String :=
  match parse_locationE x with
  | .ok v => v
  | .error _ => (none, none, "in_person")

/-! ## DateTime normalizer (parse_datetime, lines 49 to 120)

The source builds strings from regex captures and feeds them to
datetime.strptime with the fixed format weekday-abbreviation, comma, month
abbreviation, day, comma, year, hour, colon, minute, AM-or-PM.  The
embedding of strptime below follows the regex that the CPython strptime
implementation compiles for that format: whitespace in the format matches
a whitespace run, name classes are case-insensitive alternations of the
C-locale abbreviations, the day class is two-digit 01 to 31 or one digit
1 to 9, the hour class is 01 to 12 or 1 to 9, the minute class is 00 to 59
or a single digit, and the whole input must be consumed with no leading or
trailing whitespace; the datetime constructor then validates the calendar
date and the year lower bound. -/

/-- A parsed datetime value (naive, minute precision, as produced by the
format string used in the source). -/
structure DT where
  year : Nat
  month : Nat
  day : Nat
  hour : Nat
  minute : Nat
deriving DecidableEq, Repr

/-- Total order key.  For the field ranges produced by strptime
(month 1 to 12, day 1 to 31, hour 0 to 23, minute 0 to 59) comparison of
keys coincides with the lexicographic field comparison used by Python
datetime objects. -/
def DT.key (d : DT) : Nat :=
  (((d.year * 13 + d.month) * 32 + d.day) * 24 + d.hour) * 60 + d.minute

def DT.lt (a b : DT) : Prop := a.key < b.key

instance (a b : DT) : Decidable (DT.lt a b) := Nat.decLt a.key b.key

def weekdayNames : List (List Char) :=
  ["sun", "mon", "tue", "wed", "thu", "fri", "sat"].map String.data

def monthNames : List (List Char) :=
  ["jan", "feb", "mar", "apr", "may", "jun",
   "jul", "aug", "sep", "oct", "nov", "dec"].map String.data

/-- Index of the month abbreviation, one-based. -/
def monthIndex (m : List Char) : Option Nat :=
  let rec go : List (List Char) → Nat → Option Nat
    | [], _ => none
    | n :: ns, i => if m = n then some i else go ns (i + 1)
  go monthNames 1

def digitVal (c : Char) : Nat := c.toNat - '0'.toNat

def natOfDigits (l : List Char) : Nat :=
  l.foldl (fun acc c => acc * 10 + digitVal c) 0

/-- The strptime day class followed by a comma: 3 followed by 0 or 1, or 1
or 2 followed by a digit, or 0 followed by 1 to 9, or a single digit 1 to
9; longer digit runs never match because the class is followed by a
literal comma in the format. -/
def parseDayDigits : List Char → Option Nat
  | [a] => if '1' ≤ a && a ≤ '9' then some (digitVal a) else none
  | [a, b] =>
    if (a = '3' && (b = '0' || b = '1')) || (a = '1' || a = '2') ||
       (a = '0' && ('1' ≤ b && b ≤ '9')) then
      some (digitVal a * 10 + digitVal b)
    else none
  | _ => none

/-- The strptime 12-hour class followed by a colon: 1 followed by 0 to 2,
or 0 followed by 1 to 9, or a single digit 1 to 9. -/
def parseHourDigits : List Char → Option Nat
  | [a] => if '1' ≤ a && a ≤ '9' then some (digitVal a) else none
  | [a, b] =>
    if (a = '1' && (b = '0' || b = '1' || b = '2')) ||
       (a = '0' && ('1' ≤ b && b ≤ '9')) then
      some (digitVal a * 10 + digitVal b)
    else none
  | _ => none

/-- The strptime minute class followed by whitespace: 0 to 5 followed by a
digit, or a single digit. -/
def parseMinuteDigits : List Char → Option Nat
  | [a] => if isDigitB a then some (digitVal a) else none
  | [a, b] =>
    if ('0' ≤ a && a ≤ '5') && isDigitB b then
      some (digitVal a * 10 + digitVal b)
    else none
  | _ => none

def isLeapYear (y : Nat) : Bool :=
  y % 4 = 0 && (y % 100 ≠ 0 || y % 400 = 0)

def daysInMonth (y m : Nat) : Nat :=
  if m = 2 then (if isLeapYear y then 29 else 28)
  else if m = 4 || m = 6 || m = 9 || m = 11 then 30
  else 31

/-- Parse the four date tokens (weekday-comma, month, day-comma, year) and
validate the calendar date as the datetime constructor does. -/
def parseDateToks (t1 t2 t3 t4 : List Char) : Option (Nat × Nat × Nat) :=
  let r1 := spanP isAlphaB t1
  if r1.1 ≠ [] && r1.2 = [','] && weekdayNames.contains (lowerL r1.1) then
    if t2 ≠ [] && t2.all isAlphaB then
      match monthIndex (lowerL t2) with
      | none => none
      | some mo =>
        let r3 := spanP isDigitB t3
        if r3.2 = [','] then
          match parseDayDigits r3.1 with
          | none => none
          | some d =>
            if t4.length = 4 && t4.all isDigitB then
              let y := natOfDigits t4
              if 1 ≤ y && d ≤ daysInMonth y mo then some (y, mo, d)
              else none
            else none
        else none
    else none
  else none

/-- Parse the two time tokens (hour-colon-minute, AM-or-PM) and convert to
a 24-hour clock as strptime does. -/
def parseTimeToks (t5 t6 : List Char) : Option (Nat × Nat) :=
  let r := spanP isDigitB t5
  match r.2 with
  | ':' :: ms =>
    match parseHourDigits r.1, parseMinuteDigits ms with
    | some h, some mi =>
      if lowerL t6 = "am".data then
        some ((if h = 12 then 0 else h), mi)
      else if lowerL t6 = "pm".data then
        some ((if h = 12 then 12 else h + 12), mi)
      else none
    | _, _ => none
  | _ => none

/-- datetime.strptime with the fixed format of the source, as a
token-level parser: the input must have no leading or trailing whitespace
and split into exactly six whitespace-separated tokens matching the six
format components. -/
def strptimeL (l : List Char) : Option DT :=
  match l with
  | [] => none
  | c :: _ =>
    if isWsB c then none
    else if (match l.getLast? with
             | some z => isWsB z
             | none => true) then none
    else
      match tokenizeWs l with
      | [t1, t2, t3, t4, t5, t6] =>
        match parseDateToks t1 t2 t3 t4, parseTimeToks t5 t6 with
        | some (y, mo, d), some (h, mi) => some ⟨y, mo, d, h, mi⟩
        | _, _ => none
      | _ => none

/-- strptime with the ValueError made explicit. -/
def strptimeE (l : List Char) : Except String DT :=
  match strptimeL l with
  | some dt => .ok dt
  | none => .error "ValueError"

def dashChars : List Char := ['-', '–', '—']

/-- The date group of patterns 1 to 3: letters, comma, whitespace,
letters, whitespace, digits, comma, whitespace, exactly four digits.
Returns the captured group and the rest. -/
def attDate (l : List Char) : Option (List Char × List Char) :=
  let s1 := spanP isAlphaB l
  if s1.1 = [] then none
  else
    match s1.2 with
    | ',' :: r2 =>
      let s2 := spanP isWsB r2
      if s2.1 = [] then none
      else
        let s3 := spanP isAlphaB s2.2
        if s3.1 = [] then none
        else
          let s4 := spanP isWsB s3.2
          if s4.1 = [] then none
          else
            let s5 := spanP isDigitB s4.2
            if s5.1 = [] then none
            else
              match s5.2 with
              | ',' :: r6 =>
                let s6 := spanP isWsB r6
                if s6.1 = [] then none
                else
                  let yy := s6.2.take 4
                  if yy.length = 4 && yy.all isDigitB then
                    some (s1.1 ++ ',' :: s2.1 ++ s3.1 ++ s4.1 ++
                            s5.1 ++ ',' :: s6.1 ++ yy,
                          s6.2.drop 4)
                  else none
              | _ => none
    | _ => none

/-- The time group of patterns 1 to 3: digits, colon, digits, whitespace,
A or P, M.  Returns the captured group and the rest. -/
def attTime (l : List Char) : Option (List Char × List Char) :=
  let s1 := spanP isDigitB l
  if s1.1 = [] then none
  else
    match s1.2 with
    | ':' :: r2 =>
      let s2 := spanP isDigitB r2
      if s2.1 = [] then none
      else
        let s3 := spanP isWsB s2.2
        if s3.1 = [] then none
        else
          match s3.2 with
          | a :: 'M' :: r4 =>
            if a = 'A' || a = 'P' then
              some (s1.1 ++ ':' :: s2.1 ++ s3.1 ++ [a, 'M'], r4)
            else none
          | _ => none
    | _ => none

/-- A whitespace run of length at least one (the separators of the
patterns). -/
def attWs (l : List Char) : Option (List Char) :=
  let s := spanP isWsB l
  if s.1 = [] then none else some s.2

def attDash (l : List Char) : Option (List Char) :=
  match l with
  | c :: r => if dashChars.contains c then some r else none
  | [] => none

/-- Pattern 1 (line 75): date group, whitespace, time, whitespace, dash,
whitespace, time. -/
def attemptP1 (l : List Char) : Option (List Char × List Char × List Char) := do
  let (g1, r1) ← attDate l
  let r2 ← attWs r1
  let (g2, r3) ← attTime r2
  let r4 ← attWs r3
  let r5 ← attDash r4
  let r6 ← attWs r5
  let (g3, _) ← attTime r6
  pure (g1, g2, g3)

/-- Pattern 2 (line 91): date group, whitespace, time, whitespace, dash,
whitespace, date group, whitespace, time. -/
def attemptP2 (l : List Char) :
    Option (List Char × List Char × List Char × List Char) := do
  let (g1, r1) ← attDate l
  let r2 ← attWs r1
  let (g2, r3) ← attTime r2
  let r4 ← attWs r3
  let r5 ← attDash r4
  let r6 ← attWs r5
  let (g3, r7) ← attDate r6
  let r8 ← attWs r7
  let (g4, _) ← attTime r8
  pure (g1, g2, g3, g4)

/-- Pattern 3 (line 107): date group, whitespace, time. -/
def attemptP3 (l : List Char) : Option (List Char × List Char) := do
  let (g1, r1) ← attDate l
  let r2 ← attWs r1
  let (g2, _) ← attTime r2
  pure (g1, g2)

/-- parse_datetime with the exception channel made explicit.  The except
clause of the source catches every exception raised inside the try block,
so each strptime failure is mapped to the partial result accumulated in
the local variables at the point of the raise; every branch therefore
returns normally. -/
def parse_datetimeE (x : Option String) :
    Except String (Option DT × Option DT × Option String) :=
  match x with
  | none => .ok (none, none, none)
  | some s =>
    if s = "" then .ok (none, none, none)
    else
      let text := cleanHtml s.data
      match searchIn attemptP1 text with
      | some (g1, g2, g3) =>
        match strptimeE (g1 ++ ' ' :: g2) with
        | .error _ => .ok (none, none, some s)
        | .ok sd =>
          match strptimeE (g1 ++ ' ' :: g3) with
          | .error _ => .ok (some sd, none, some s)
          | .ok ed => .ok (some sd, some ed, some s)
      | none =>
        match searchIn attemptP2 text with
        | some (d1, t1, d2, t2) =>
          match strptimeE (d1 ++ ' ' :: t1) with
          | .error _ => .ok (none, none, some s)
          | .ok sd =>
            match strptimeE (d2 ++ ' ' :: t2) with
            | .error _ => .ok (some sd, none, some s)
            | .ok ed => .ok (some sd, some ed, some s)
        | none =>
          match searchIn attemptP3 text with
          | some (d, t) =>
            match strptimeE (d ++ ' ' :: t) with
            | .error _ => .ok (none, none, some s)
            | .ok sd => .ok (some sd, none, some s)
          | none => .ok (none, none, some s)

def parse_datetime (x : Option String) :
    Option DT × Option DT × Option String :=
  match parse_datetimeE x with
  | .ok v => v
  | .error _ => (none, none, none)

/-! ## Batch orchestration (insert_events, lines 244 to 306)

Only the pure prefix of insert_events is embedded: batch deduplication by
event identifier (lines 261 to 275) and assembly of the value tuples
(lines 277 to 306).  The cursor and SQL execution are the persistence
boundary, out of scope of the normalization pipeline. -/

/-- A JSON scalar as it can appear in the attendees field: the record
either lacks the key or holds an integer or a string. -/
inductive AttVal where
  | int (n : Int)
  | str (s : String)
deriving DecidableEq, Repr

/-- A raw scraped event record: every field may be absent, as in the JSON
input.  Identifier values are modelled as strings. -/
structure RawEvent where
  event_id : Option String := none
  event_uid : Option String := none
  name : Option String := none
  description : Option String := none
  dates : Option String := none
  location : Option String := none
  category : Option String := none
  club_id : Option String := none
  club_login : Option String := none
  club_name : Option String := none
  attendees : Option AttVal := none
  picture_url : Option String := none
  price_range : Option String := none
  button_label : Option String := none
  badges : Option String := none
  event_url : Option String := none
  timezone : Option String := none
  aria_details : Option String := none
deriving DecidableEq, Repr

/-- Python truthiness of the identifier value (None and the empty string
are falsy). -/
def truthyId : Option String → Bool
  | none => false
  | some s => s ≠ ""

/-- The dedup loop of lines 266 to 272: a record is kept when its
identifier is truthy and not yet seen; otherwise the duplicate counter is
incremented. -/
def dedupGo (seen : List String) : List RawEvent → List RawEvent × Nat
  | [] => ([], 0)
  | e :: rest =>
    match e.event_id with
    | some i =>
      if i ≠ "" && !seen.contains i then
        let r := dedupGo (i :: seen) rest
        (e :: r.1, r.2)
      else
        let r := dedupGo seen rest
        (r.1, r.2 + 1)
    | none =>
      let r := dedupGo seen rest
      (r.1, r.2 + 1)

def dedupEvents (events : List RawEvent) : List RawEvent × Nat :=
  dedupGo [] events

/-- Helper for the attendee coercion: decimal digit characters of a
natural number, accumulator-based with fuel (the fuel of the wrapper is
always sufficient since a number below 10 to the f has at most f
digits). -/
def natDigitsGo : Nat → Nat → List Char → List Char
  | 0, _, acc => acc
  | f + 1, n, acc =>
    if n < 10 then Char.ofNat (48 + n) :: acc
    else natDigitsGo f (n / 10) (Char.ofNat (48 + n % 10) :: acc)

def natDigitsL (n : Nat) : List Char := natDigitsGo (n + 1) n []

/-- str of an int, as Python renders it. -/
def pyIntStrL (n : Int) : List Char :=
  if n < 0 then '-' :: natDigitsL n.natAbs else natDigitsL n.toNat

/-- str.isdigit restricted to ASCII digits (on ASCII data the Python
predicate agrees; the non-ASCII digit classes of Unicode are outside the
model). -/
def pyIsDigit (l : List Char) : Bool :=
  l ≠ [] && l.all isDigitB

/-- The attendee coercion of line 298: the value of the field when it is
truthy and its string rendering is all digits, else 0.  int applied to an
int is the identity; int applied to an all-digit string is its decimal
value. -/
def coerceAttendees : Option AttVal → Int
  | none => 0
  | some (.int n) => if n ≠ 0 && pyIsDigit (pyIntStrL n) then n else 0
  | some (.str s) =>
    if s ≠ "" && pyIsDigit s.data then (natOfDigits s.data : Int) else 0

/-- One assembled value tuple of lines 285 to 306, as a named row. -/
structure CanonicalRow where
  event_id : Option String
  event_uid : Option String
  event_name : Option String
  event_description : Option String
  event_start_datetime : Option DT
  event_end_datetime : Option DT
  original_date_string : Option String
  category : Option String
  location_text : Option String
  online_link : Option String
  event_type : String
  org_id : Option String
  attendees : Int
  picture_url : Option String
  price_range : Option String
  button_label : Option String
  badges : Option String
  event_url : Option String
  timezone : Option String
  aria_details : Option String
deriving DecidableEq, Repr

/-- Assembly of one canonical row from a surviving raw record (lines 278
to 306). -/
def assembleRow (e : RawEvent) : CanonicalRow :=
  let d := parse_datetime e.dates
  let loc := parse_location e.location
  { event_id := e.event_id
    event_uid := e.event_uid
    event_name := e.name
    event_description := e.description
    event_start_datetime := d.1
    event_end_datetime := d.2.1
    original_date_string := d.2.2
    category := e.category
    location_text := loc.1
    online_link := loc.2.1
    event_type := loc.2.2
    org_id := e.club_id
    attendees := coerceAttendees e.attendees
    picture_url := e.picture_url
    price_range := e.price_range
    button_label := e.button_label
    badges := e.badges
    event_url := e.event_url
    timezone := e.timezone
    aria_details := e.aria_details }

/-- The pure batch transform of insert_events: dedup, then one row per
surviving record, with the duplicate count. -/
def normalizeBatch (events : List RawEvent) : List CanonicalRow × Nat :=
  let r := dedupEvents events
  (r.1.map assembleRow, r.2)

/-! ## Lemmas about the location normalizer -/

theorem locResult_link (link : Option String) (u : String) :
    (locResult link u).2.1 = link := rfl

theorem locResult_in_person_iff (link : Option String) (u : String) :
    (locResult link u).2.2 = "in_person" ↔
      link = none ∧ containsOnline u = false := by
  cases link with
  | some v =>
    simp only [locResult, Option.isSome_some]
    by_cases hp : hasPhysicalLocation u = true <;> simp [hp]
  | none =>
    simp only [locResult, Option.isSome_none, Bool.and_false, Bool.false_or]
    by_cases hu : u = ""
    · subst hu; simp [containsOnline, lowerL, substrIn, startsWithL]
    · by_cases hc : containsOnline u = true
      · simp [hu, hc]
      · simp only [Bool.not_eq_true] at hc
        simp [hu, hc]

theorem locResult_hybrid_iff (link : Option String) (u : String) :
    (locResult link u).2.2 = "hybrid" ↔
      hasPhysicalLocation u = true ∧ link.isSome = true := by
  by_cases hp : hasPhysicalLocation u = true <;>
    by_cases hl : link.isSome = true <;>
      simp only [locResult, hp, hl, Bool.and_true, Bool.and_false,
        Bool.true_and, Bool.false_and, if_true, if_false] <;>
      first
        | (simp [hp, hl]; done)
        | (by_cases hc2 : (¬u = "" ∧ containsOnline u = true) <;>
            simp [hp, hl, hc2])

theorem locResult_link_type (link : Option String) (u : String)
    (h : link.isSome = true) :
    (locResult link u).2.2 = "online" ∨ (locResult link u).2.2 = "hybrid" := by
  by_cases hp : hasPhysicalLocation u = true <;>
    simp [locResult, hp, h]

theorem parse_location_some (s : String) (h : s ≠ "") :
    parse_location (some s) = locResult (findHref s) (cleanLocationText s) := by
  simp [parse_location, parse_locationE, h]

/-! ## Claim theorems -/

/-- C1 (counterexample): the input Online Info Session has non-empty
cleaned text that is not one of the placeholders and yields no href URL,
yet parse_location classifies it online, not in_person, because the
classification tests for the word online as a substring. -/
theorem claim_C1_counterexample :
    cleanLocationText "Online Info Session" = "Online Info Session" ∧
    findHref "Online Info Session" = none ∧
    lowerS "Online Info Session" ∉ placeholders ∧
    (parse_location (some "Online Info Session")).2.2 = "online" := by
  refine ⟨?_, ?_, ?_, ?_⟩ <;> decide

/-- C1 (amended): parse_location returns event_type in_person exactly when
no href URL is extracted and the cleaned location text does not contain
the word online case-insensitively; the online classification therefore
also fires for non-placeholder texts that merely contain the word
online. -/
theorem claim_C1_in_person_iff :
    ∀ s : String,
      (parse_location (some s)).2.2 = "in_person" ↔
        (findHref s = none ∧ containsOnline (cleanLocationText s) = false) := by
  intro s
  by_cases hs : s = ""
  · subst hs; decide
  · rw [parse_location_some s hs, locResult_in_person_iff]

/-- C3: parse_location returns event_type hybrid exactly when the cleaned
location text is non-placeholder physical text and an href URL was
extracted; on the concrete input of the claim it yields the text GWC 487,
the zoom URL, and the hybrid classification. -/
theorem claim_C3_hybrid_iff :
    (∀ s : String,
      (parse_location (some s)).2.2 = "hybrid" ↔
        (hasPhysicalLocation (cleanLocationText s) = true ∧
         (findHref s).isSome = true)) ∧
    parse_location
        (some "GWC 487<div><a href=\"https://x.zoom.us/j/123\">Zoom link</a></div>") =
      (some "GWC 487", some "https://x.zoom.us/j/123", "hybrid") := by
  constructor
  · intro s
    by_cases hs : s = ""
    · subst hs; decide
    · rw [parse_location_some s hs, locResult_hybrid_iff]
  · decide

/-- C10: whenever parse_location extracts a link, the classification is
online or hybrid, never in_person. -/
theorem claim_C10_link_never_in_person (x : Option String)
    (h : (parse_location x).2.1.isSome = true) :
    (parse_location x).2.2 = "online" ∨ (parse_location x).2.2 = "hybrid" := by
  cases x with
  | none => simp [parse_location, parse_locationE] at h
  | some s =>
    by_cases hs : s = ""
    · subst hs; simp [parse_location, parse_locationE] at h
    · rw [parse_location_some s hs] at h ⊢
      rw [locResult_link] at h
      exact locResult_link_type _ _ h

theorem claim_C10_witness :
    (parse_location (some "Room 1<a href='https://u.v/w'>join</a>")).2.2 = "online" ∨
    (parse_location (some "Room 1<a href='https://u.v/w'>join</a>")).2.2 = "hybrid" :=
  claim_C10_link_never_in_person _ (by decide)

/-- C9: both normalizers return normally on every input: every branch of
the embedded functions, with the exception channel made explicit, produces
an ok value, so data errors never propagate as exceptions. -/
theorem claim_C9_no_exception :
    ∀ x : Option String,
      (parse_datetimeE x).isOk = true ∧ (parse_locationE x).isOk = true := by
  intro x
  constructor
  · cases x with
    | none => rfl
    | some s =>
      simp only [parse_datetimeE]
      repeat' split
      all_goals rfl
  · cases x with
    | none => rfl
    | some s =>
      simp only [parse_locationE]
      split <;> rfl

theorem parse_datetimeE_start_none (x : Option String)
    (r : Option DT × Option DT × Option String)
    (he : parse_datetimeE x = .ok r) (h : r.1 = none) : r.2.1 = none := by
  cases x with
  | none =>
    simp only [parse_datetimeE] at he
    injection he with he
    subst he; rfl
  | some s =>
    simp only [parse_datetimeE] at he
    repeat' split at he
    all_goals (injection he with he; subst he; simp_all)

/-- C7: parse_datetime never returns an end timestamp without a start
timestamp: if the start of the result is absent, so is the end. -/
theorem claim_C7_no_end_without_start (x : Option String)
    (h : (parse_datetime x).1 = none) : (parse_datetime x).2.1 = none := by
  rcases he : parse_datetimeE x with e | r
  · simp [parse_datetime, he]
  · simp only [parse_datetime, he] at h ⊢
    exact parse_datetimeE_start_none x r he h

theorem claim_C7_witness :
    (parse_datetime (some "no date here")).2.1 = none :=
  claim_C7_no_end_without_start (some "no date here") (by decide)

/-- C4 (counterexample): on the empty input string parse_datetime returns
a null original component, not the original empty string, so the claimed
byte-for-byte preservation fails for the empty string. -/
theorem claim_C4_counterexample :
    parse_datetime (some "") = (none, none, none) ∧
    (none : Option String) ≠ some "" := by
  refine ⟨by decide, by decide⟩

/-- C4 (amended): for every non-empty input in which no pattern matches,
or in which the first matching pattern has a start substring that strptime
rejects, parse_datetime returns null timestamps and the original input
string unchanged. -/
theorem claim_C4_unparsed_preserves_original (s : String) (hne : s ≠ "")
    (h : (searchIn attemptP1 (cleanHtml s.data) = none ∧
          searchIn attemptP2 (cleanHtml s.data) = none ∧
          searchIn attemptP3 (cleanHtml s.data) = none) ∨
         (∃ g, searchIn attemptP1 (cleanHtml s.data) = some g ∧
               strptimeL (g.1 ++ ' ' :: g.2.1) = none) ∨
         (searchIn attemptP1 (cleanHtml s.data) = none ∧
          ∃ g, searchIn attemptP2 (cleanHtml s.data) = some g ∧
               strptimeL (g.1 ++ ' ' :: g.2.1) = none) ∨
         (searchIn attemptP1 (cleanHtml s.data) = none ∧
          searchIn attemptP2 (cleanHtml s.data) = none ∧
          ∃ g, searchIn attemptP3 (cleanHtml s.data) = some g ∧
               strptimeL (g.1 ++ ' ' :: g.2) = none)) :
    parse_datetime (some s) = (none, none, some s) := by
  rcases h with ⟨h1, h2, h3⟩ | ⟨g, hg, hp⟩ | ⟨h1, g, hg, hp⟩ | ⟨h1, h2, g, hg, hp⟩
  · simp [parse_datetime, parse_datetimeE, hne, h1, h2, h3]
  · simp [parse_datetime, parse_datetimeE, strptimeE, hne, hg, hp]
  · simp [parse_datetime, parse_datetimeE, strptimeE, hne, h1, hg, hp]
  · simp [parse_datetime, parse_datetimeE, strptimeE, hne, h1, h2, hg, hp]

theorem claim_C4_witness :
    parse_datetime (some "hello") = (none, none, some "hello") :=
  claim_C4_unparsed_preserves_original "hello" (by decide)
    (Or.inl ⟨by decide, by decide, by decide⟩)

/-! ## Lemmas about the attendee coercion -/

theorem isDigitB_digitChar (m : Nat) (h : m < 10) :
    isDigitB (Char.ofNat (48 + m)) = true := by
  interval_cases m <;> decide

theorem natDigitsGo_all_digits (f : Nat) :
    ∀ n acc, (∀ c ∈ acc, isDigitB c = true) →
      ∀ c ∈ natDigitsGo f n acc, isDigitB c = true := by
  induction f with
  | zero => intro n acc hacc c hc; exact hacc c hc
  | succ f ih =>
    intro n acc hacc c hc
    simp only [natDigitsGo] at hc
    split at hc
    · simp only [List.mem_cons] at hc
      rcases hc with h | h
      · subst h
        exact isDigitB_digitChar n (by omega)
      · exact hacc c h
    · refine ih (n / 10) _ ?_ c hc
      intro d hd
      simp only [List.mem_cons] at hd
      rcases hd with h | h
      · subst h
        exact isDigitB_digitChar (n % 10) (Nat.mod_lt n (by omega))
      · exact hacc d h

theorem natDigitsGo_ne_nil (f : Nat) :
    ∀ n acc, natDigitsGo f n acc = [] → acc = [] ∧ f = 0 := by
  induction f with
  | zero => intro n acc h; exact ⟨h, rfl⟩
  | succ f ih =>
    intro n acc h
    simp only [natDigitsGo] at h
    split at h
    · cases h
    · have := ih (n / 10) _ h
      cases this.1

theorem pyIsDigit_natDigitsL (n : Nat) : pyIsDigit (natDigitsL n) = true := by
  have h1 : natDigitsL n ≠ [] := by
    intro h
    have := natDigitsGo_ne_nil (n + 1) n [] h
    omega
  have h2 := natDigitsGo_all_digits (n + 1) n [] (by intro c hc; cases hc)
  simp only [pyIsDigit, natDigitsL, Bool.and_eq_true, ne_eq, decide_eq_true_eq,
    List.all_eq_true]
  exact ⟨h1, h2⟩

theorem pyIsDigit_neg (n : Int) (h : n < 0) :
    pyIsDigit (pyIntStrL n) = false := by
  simp only [pyIntStrL, if_pos h, pyIsDigit]
  have : isDigitB '-' = false := by decide
  simp [this]

/-- C8: the attendee count of every assembled canonical row is a
non-negative integer; it equals the field value for a non-negative integer
field or an all-digit string field, and is zero for a missing field, a
negative integer field, or a non-digit string field such as abc. -/
theorem claim_C8_attendees :
    (∀ e : RawEvent, 0 ≤ (assembleRow e).attendees) ∧
    (∀ n : Int, 0 ≤ n → coerceAttendees (some (.int n)) = n) ∧
    (∀ n : Int, n < 0 → coerceAttendees (some (.int n)) = 0) ∧
    (∀ s : String, pyIsDigit s.data = true →
      coerceAttendees (some (.str s)) = (natOfDigits s.data : Int)) ∧
    (∀ s : String, pyIsDigit s.data = false →
      coerceAttendees (some (.str s)) = 0) ∧
    coerceAttendees none = 0 ∧
    (assembleRow { attendees := some (.str "abc") }).attendees = 0 := by
  have hint : ∀ n : Int, 0 ≤ n → coerceAttendees (some (.int n)) = n := by
    intro n hn
    rcases eq_or_lt_of_le hn with h0 | hpos
    · simp [coerceAttendees, ← h0]
    · have hne : n ≠ 0 := by omega
      have hd : pyIsDigit (pyIntStrL n) = true := by
        simp only [pyIntStrL, if_neg (by omega : ¬n < 0)]
        exact pyIsDigit_natDigitsL n.toNat
      simp [coerceAttendees, hne, hd]
  have hneg : ∀ n : Int, n < 0 → coerceAttendees (some (.int n)) = 0 := by
    intro n hn
    simp [coerceAttendees, pyIsDigit_neg n hn]
  have hstr : ∀ s : String, pyIsDigit s.data = true →
      coerceAttendees (some (.str s)) = (natOfDigits s.data : Int) := by
    intro s hs
    have hne : s ≠ "" := by
      intro h
      subst h
      simp [pyIsDigit] at hs
    simp [coerceAttendees, hne, hs]
  have hstr0 : ∀ s : String, pyIsDigit s.data = false →
      coerceAttendees (some (.str s)) = 0 := by
    intro s hs
    simp [coerceAttendees, hs]
  refine ⟨?_, hint, hneg, hstr, hstr0, rfl, by decide⟩
  intro e
  show 0 ≤ coerceAttendees e.attendees
  rcases e.attendees with _ | v
  · simp [coerceAttendees]
  · rcases v with n | s
    · rcases lt_or_le n 0 with h | h
      · rw [hneg n h]
      · rw [hint n h]; exact h
    · by_cases hd : pyIsDigit s.data = true
      · rw [hstr s hd]
        exact Int.ofNat_nonneg _
      · rw [hstr0 s (by simpa using hd)]

theorem claim_C8_witness :
    0 ≤ (5 : Int) ∧ coerceAttendees (some (.int 5)) = 5 :=
  ⟨by decide, claim_C8_attendees.2.1 5 (by decide)⟩

/-! ## Lemmas about batch deduplication -/

theorem dedupGo_congr :
    ∀ (l : List RawEvent) (s1 s2 : List String),
      (∀ c, c ∈ s1 ↔ c ∈ s2) → dedupGo s1 l = dedupGo s2 l := by
  intro l
  induction l with
  | nil => intro s1 s2 _; rfl
  | cons e rest ih =>
    intro s1 s2 h
    cases he : e.event_id with
    | none => simp only [dedupGo, he]; rw [ih s1 s2 h]
    | some i =>
      have hc : s1.contains i = s2.contains i := by
        by_cases h1 : i ∈ s1
        · have h2 : i ∈ s2 := (h i).mp h1
          simp [h1, h2]
        · have h2 : i ∉ s2 := fun hx => h1 ((h i).mpr hx)
          simp [h1, h2]
      simp only [dedupGo, he]
      rw [hc]
      split
      · rw [ih (i :: s1) (i :: s2) (by intro c; simp [h c])]
      · rw [ih s1 s2 h]

theorem dedupGo_clean :
    ∀ (l : List RawEvent) (seen : List String),
      (∀ r ∈ l, ∃ j, r.event_id = some j ∧ j ≠ "" ∧ j ∉ seen) →
      l.Pairwise (fun r s => r.event_id ≠ s.event_id) →
      dedupGo seen l = (l, 0) := by
  intro l
  induction l with
  | nil => intro seen _ _; rfl
  | cons e rest ih =>
    intro seen hgood hpw
    obtain ⟨i, hei, hine, hnot⟩ := hgood e (by simp)
    have hcont : seen.contains i = false := by simpa using hnot
    rw [List.pairwise_cons] at hpw
    have hrest : ∀ r ∈ rest, ∃ j, r.event_id = some j ∧ j ≠ "" ∧ j ∉ i :: seen := by
      intro r hr
      obtain ⟨j, hrj, hjne, hjnot⟩ := hgood r (List.mem_cons_of_mem _ hr)
      refine ⟨j, hrj, hjne, ?_⟩
      intro hmem
      rcases List.mem_cons.mp hmem with hji | hjs
      · exact hpw.1 r hr (by rw [hei, hrj, hji])
      · exact hjnot hjs
    simp only [dedupGo, hei, hcont]
    rw [ih (i :: seen) hrest hpw.2]
    simp [hine]

theorem dedupGo_one_dup :
    ∀ (mid : List RawEvent) (post : List RawEvent) (seen : List String)
      (b : RawEvent) (i : String),
      b.event_id = some i → i ∈ seen →
      (∀ r ∈ mid ++ post, ∃ j, r.event_id = some j ∧ j ≠ "" ∧ j ∉ seen) →
      (mid ++ post).Pairwise (fun r s => r.event_id ≠ s.event_id) →
      dedupGo seen (mid ++ b :: post) = (mid ++ post, 1) := by
  intro mid
  induction mid with
  | nil =>
    intro post seen b i hb hsee hgood hpw
    have hcont : seen.contains i = true := by simpa using hsee
    simp only [List.nil_append] at hgood hpw ⊢
    simp only [dedupGo, hb, hcont]
    rw [dedupGo_clean post seen hgood hpw]
    simp
  | cons m mid' ih =>
    intro post seen b i hb hsee hgood hpw
    obtain ⟨k, hmk, hkne, hknot⟩ := hgood m (by simp)
    have hcont : seen.contains k = false := by simpa using hknot
    simp only [List.cons_append] at hpw ⊢
    rw [List.pairwise_cons] at hpw
    have hrest : ∀ r ∈ mid' ++ post,
        ∃ j, r.event_id = some j ∧ j ≠ "" ∧ j ∉ k :: seen := by
      intro r hr
      obtain ⟨j, hrj, hjne, hjnot⟩ := hgood r (List.mem_cons_of_mem _ hr)
      refine ⟨j, hrj, hjne, ?_⟩
      intro hmem
      rcases List.mem_cons.mp hmem with hjk | hjs
      · exact hpw.1 r hr (by rw [hmk, hrj, hjk])
      · exact hjnot hjs
    simp only [dedupGo, hmk, hcont]
    rw [ih post (k :: seen) b i hb (List.mem_cons_of_mem _ hsee) hrest hpw.2]
    simp [hkne]

theorem dedupGo_main :
    ∀ (pre : List RawEvent) (seen : List String)
      (mid post : List RawEvent) (a b : RawEvent),
      (∀ r ∈ pre ++ a :: (mid ++ post),
        ∃ j, r.event_id = some j ∧ j ≠ "" ∧ j ∉ seen) →
      (pre ++ a :: (mid ++ post)).Pairwise
        (fun r s => r.event_id ≠ s.event_id) →
      b.event_id = a.event_id →
      dedupGo seen (pre ++ a :: (mid ++ b :: post)) =
        (pre ++ a :: (mid ++ post), 1) := by
  intro pre
  induction pre with
  | nil =>
    intro seen mid post a b hgood hpw hb
    obtain ⟨i, hai, hine, hnot⟩ := hgood a (by simp)
    have hcont : seen.contains i = false := by simpa using hnot
    simp only [List.nil_append] at hgood hpw ⊢
    rw [List.pairwise_cons] at hpw
    have hrest : ∀ r ∈ mid ++ post,
        ∃ j, r.event_id = some j ∧ j ≠ "" ∧ j ∉ i :: seen := by
      intro r hr
      obtain ⟨j, hrj, hjne, hjnot⟩ := hgood r (List.mem_cons_of_mem _ hr)
      refine ⟨j, hrj, hjne, ?_⟩
      intro hmem
      rcases List.mem_cons.mp hmem with hji | hjs
      · exact hpw.1 r hr (by rw [hai, hrj, hji])
      · exact hjnot hjs
    simp only [dedupGo, hai, hcont]
    rw [dedupGo_one_dup mid post (i :: seen) b i (by rw [hb, hai])
      (by simp) hrest hpw.2]
    simp [hine]
  | cons p pre' ih =>
    intro seen mid post a b hgood hpw hb
    obtain ⟨k, hpk, hkne, hknot⟩ := hgood p (by simp)
    have hcont : seen.contains k = false := by simpa using hknot
    simp only [List.cons_append] at hpw ⊢
    rw [List.pairwise_cons] at hpw
    have hrest : ∀ r ∈ pre' ++ a :: (mid ++ post),
        ∃ j, r.event_id = some j ∧ j ≠ "" ∧ j ∉ k :: seen := by
      intro r hr
      obtain ⟨j, hrj, hjne, hjnot⟩ := hgood r (List.mem_cons_of_mem _ hr)
      refine ⟨j, hrj, hjne, ?_⟩
      intro hmem
      rcases List.mem_cons.mp hmem with hjk | hjs
      · exact hpw.1 r hr (by rw [hpk, hrj, hjk])
      · exact hjnot hjs
    simp only [dedupGo, hpk, hcont]
    rw [ih (k :: seen) mid post a b hrest hpw.2 hb]
    simp [hkne]

/-- C6: batch deduplication keeps the first occurrence of each identifier
in input order: for a batch whose identifiers are present, non-empty and
otherwise pairwise distinct except for one later record b sharing the
identifier of an earlier record a, the output drops exactly b and the
duplicate count is 1. -/
theorem claim_C6_first_occurrence_wins (pre mid post : List RawEvent)
    (a b : RawEvent)
    (hgood : ∀ r ∈ pre ++ a :: (mid ++ post), ∃ j, r.event_id = some j ∧ j ≠ "")
    (hdist : (pre ++ a :: (mid ++ post)).Pairwise
      (fun r s => r.event_id ≠ s.event_id))
    (hb : b.event_id = a.event_id) :
    dedupEvents (pre ++ a :: (mid ++ b :: post)) =
      (pre ++ a :: (mid ++ post), 1) := by
  refine dedupGo_main pre [] mid post a b ?_ hdist hb
  intro r hr
  obtain ⟨j, hrj, hjne⟩ := hgood r hr
  exact ⟨j, hrj, hjne, by simp⟩

/-! ## Lemmas for the re-feed claim -/

theorem containsOnline_ne_empty (u : String) (h : containsOnline u = true) :
    u ≠ "" := by
  intro hu
  subst hu
  exact absurd h (by decide)

theorem containsOnline_of_lower_eq (u : String)
    (h : lowerS u = "online event") : containsOnline u = true := by
  have hd : lowerL u.data = "online event".data := congrArg String.data h
  simp only [containsOnline, hd]
  decide

/-- Full behaviour of the classification when no link was extracted. -/
theorem locResult_none_eq (u : String) :
    (containsOnline u = true ∧
      (((lowerS u = "online" ∨ lowerS u = "online event") ∧
          locResult none u = (some "Online", none, "online")) ∨
       (¬(lowerS u = "online" ∨ lowerS u = "online event") ∧
          locResult none u = (some u, none, "online")))) ∨
    (containsOnline u = false ∧
      ((u = "" ∧ locResult none u = (none, none, "in_person")) ∨
       (u ≠ "" ∧ locResult none u = (some u, none, "in_person")))) := by
  by_cases hc : containsOnline u = true
  · left
    refine ⟨hc, ?_⟩
    have hne : u ≠ "" := containsOnline_ne_empty u hc
    by_cases hp : lowerS u = "online" ∨ lowerS u = "online event"
    · left
      refine ⟨hp, ?_⟩
      simp [locResult, hasPhysicalLocation, hc, hne, hp]
    · right
      push_neg at hp
      refine ⟨by push_neg; exact hp, ?_⟩
      simp [locResult, hc, hne, hp.1, hp.2]
  · right
    have hc' : containsOnline u = false := by simpa using hc
    refine ⟨hc', ?_⟩
    by_cases hu : u = ""
    · left
      refine ⟨hu, ?_⟩
      subst hu
      decide
    · right
      refine ⟨hu, ?_⟩
      have hoe : lowerS u ≠ "online event" := by
        intro hh
        rw [containsOnline_of_lower_eq u hh] at hc'
        cases hc'
      simp [locResult, hc', hu, hoe]

/-- C5 (counterexample): re-feeding the cleaned text is not a no-op for
classification: the hybrid record of the concrete scenario re-classifies
as in_person because the link lives only in the discarded markup. -/
theorem claim_C5_counterexample :
    parse_location
        (some "GWC 487<div><a href=\"https://x.zoom.us/j/123\">Zoom link</a></div>") =
      (some "GWC 487", some "https://x.zoom.us/j/123", "hybrid") ∧
    parse_location (some "GWC 487") = (some "GWC 487", none, "in_person") ∧
    ("in_person" : String) ≠ "hybrid" := by
  refine ⟨by decide, by decide, by decide⟩

/-- C5 (amended): re-feeding the cleaned location text preserves both the
text and the classification for records without an extracted link,
provided the returned text is itself clean (re-cleaning it is the identity
and it yields no href match); when a link was extracted the property
fails, as the counterexample shows. -/
theorem claim_C5_refeed_no_link (x : Option String) (t link : Option String)
    (ty : String)
    (h : parse_location x = (t, link, ty)) (hl : link = none)
    (ht : ∀ u, t = some u → cleanLocationText u = u ∧ findHref u = none) :
    parse_location t = (t, none, ty) := by
  subst hl
  cases x with
  | none =>
    have h2 : ((none, none, "in_person") :
        Option String × Option String × String) = (t, none, ty) := h
    simp only [Prod.mk.injEq] at h2
    obtain ⟨h1, -, h3⟩ := h2
    subst h1
    subst h3
    rfl
  | some s =>
    by_cases hs : s = ""
    · subst hs
      have h2 : ((none, none, "in_person") :
          Option String × Option String × String) = (t, none, ty) := h
      simp only [Prod.mk.injEq] at h2
      obtain ⟨h1, -, h3⟩ := h2
      subst h1
      subst h3
      rfl
    · rw [parse_location_some s hs] at h
      have hlink : findHref s = none := by
        have h2 := congrArg (fun p => p.2.1) h
        simpa [locResult_link] using h2
      rw [hlink] at h
      rcases locResult_none_eq (cleanLocationText s) with
        ⟨hc, ⟨hp, heq⟩ | ⟨hp, heq⟩⟩ | ⟨hc, ⟨hu, heq⟩ | ⟨hu, heq⟩⟩
      · rw [heq] at h
        simp only [Prod.mk.injEq] at h
        obtain ⟨h1, -, h3⟩ := h
        subst h1
        subst h3
        decide
      · rw [heq] at h
        simp only [Prod.mk.injEq] at h
        obtain ⟨h1, -, h3⟩ := h
        subst h1
        subst h3
        obtain ⟨hclean, hfind⟩ := ht _ rfl
        have hne : cleanLocationText s ≠ "" := containsOnline_ne_empty _ hc
        rw [parse_location_some _ hne, hfind, hclean]
        rcases locResult_none_eq (cleanLocationText s) with
          ⟨_, ⟨hp2, _⟩ | ⟨_, heq2⟩⟩ | ⟨hc2, _⟩
        · exact absurd hp2 hp
        · exact heq2
        · rw [hc] at hc2; cases hc2
      · rw [heq] at h
        simp only [Prod.mk.injEq] at h
        obtain ⟨h1, -, h3⟩ := h
        subst h1
        subst h3
        rfl
      · rw [heq] at h
        simp only [Prod.mk.injEq] at h
        obtain ⟨h1, -, h3⟩ := h
        subst h1
        subst h3
        obtain ⟨hclean, hfind⟩ := ht _ rfl
        rw [parse_location_some _ hu, hfind, hclean]
        rcases locResult_none_eq (cleanLocationText s) with
          ⟨hc2, _⟩ | ⟨_, ⟨hu2, _⟩ | ⟨_, heq2⟩⟩
        · rw [hc] at hc2; cases hc2
        · exact absurd hu2 hu
        · exact heq2

theorem claim_C5_witness :
    parse_location (some "GWC 487") = (some "GWC 487", none, "in_person") :=
  claim_C5_refeed_no_link (some "GWC 487") (some "GWC 487") none "in_person"
    (by decide) rfl
    (by intro u hu
        injection hu with hu
        subst hu
        exact ⟨by decide, by decide⟩)

theorem claim_C6_witness :
    dedupEvents [{ event_id := some "e1" },
                 { event_id := some "e1", name := some "second" }] =
      ([{ event_id := some "e1" }], 1) :=
  claim_C6_first_occurrence_wins [] [] [] _ _
    (by intro r hr
        simp only [List.nil_append, List.append_nil, List.mem_singleton] at hr
        subst hr
        exact ⟨"e1", rfl, by decide⟩)
    (by simp) rfl

/-! ## Lemmas about spans and whitespace tokenization, for the same-day
range claim -/

theorem spanP_fst_all (p : Char → Bool) :
    ∀ l : List Char, ∀ c ∈ (spanP p l).1, p c = true := by
  intro l
  induction l with
  | nil => intro c hc; cases hc
  | cons x t ih =>
    intro c hc
    by_cases hx : p x = true
    · simp only [spanP, hx, if_true, List.mem_cons] at hc
      rcases hc with rfl | hc
      · exact hx
      · exact ih c hc
    · simp only [spanP, hx, if_false] at hc
      cases hc

theorem spanP_append (p : Char → Bool) :
    ∀ (xs ys : List Char), (∀ c ∈ xs, p c = true) →
      (∀ d, ys.head? = some d → p d = false) →
      spanP p (xs ++ ys) = (xs, ys) := by
  intro xs
  induction xs with
  | nil =>
    intro ys _ hys
    cases ys with
    | nil => rfl
    | cons y t => simp [spanP, hys y rfl]
  | cons x xs ih =>
    intro ys hxs hys
    have hx : p x = true := hxs x (by simp)
    simp only [List.cons_append, spanP, hx, if_true, List.append_eq]
    rw [ih ys (fun c hc => hxs c (by simp [hc])) hys]

theorem tokAux_nonws :
    ∀ (xs cur rest : List Char), (∀ c ∈ xs, isWsB c = false) →
      tokAux cur (xs ++ rest) = tokAux (xs.reverse ++ cur) rest := by
  intro xs
  induction xs with
  | nil => intro cur rest _; simp
  | cons x xs ih =>
    intro cur rest h
    have hx : isWsB x = false := h x (by simp)
    simp only [List.cons_append, tokAux, hx, Bool.false_eq_true, if_false,
      List.append_eq]
    rw [ih (x :: cur) rest (fun c hc => h c (by simp [hc]))]
    simp

theorem tokAux_wsrun :
    ∀ (xs rest : List Char), (∀ c ∈ xs, isWsB c = true) →
      tokAux [] (xs ++ rest) = tokAux [] rest := by
  intro xs
  induction xs with
  | nil => intro rest _; rfl
  | cons x xs ih =>
    intro rest h
    have hx : isWsB x = true := h x (by simp)
    simp only [List.cons_append, tokAux, hx, if_true]
    exact ih rest (fun c hc => h c (by simp [hc]))

/-- A maximal non-whitespace block followed by a whitespace run becomes one
token. -/
theorem tokAux_block (blk s rest : List Char)
    (hb : ∀ c ∈ blk, isWsB c = false) (hb0 : blk ≠ [])
    (hs : ∀ c ∈ s, isWsB c = true) (hs0 : s ≠ []) :
    tokAux [] (blk ++ (s ++ rest)) = blk :: tokAux [] rest := by
  rw [tokAux_nonws blk [] (s ++ rest) hb]
  cases s with
  | nil => cases hs0 rfl
  | cons e s' =>
    have he : isWsB e = true := hs e (by simp)
    have hrev : blk.reverse ++ [] ≠ [] := by simp [hb0]
    simp only [List.append_nil] at hrev ⊢
    simp only [List.cons_append, tokAux, he, if_true, List.append_eq]
    have : ¬ blk.reverse = [] := by simpa using hb0
    simp only [this, if_false]
    rw [List.reverse_reverse]
    rw [tokAux_wsrun s' rest (fun c hc => hs c (by simp [hc]))]

/-- A trailing non-whitespace block becomes the last token. -/
theorem tokAux_last (blk : List Char)
    (hb : ∀ c ∈ blk, isWsB c = false) (hb0 : blk ≠ []) :
    tokAux [] blk = [blk] := by
  have := tokAux_nonws blk [] [] hb
  simp only [List.append_nil] at this
  rw [this]
  simp only [tokAux]
  have : ¬ blk.reverse = [] := by simpa using hb0
  simp [this]

theorem tokAux_append_space :
    ∀ (a : List Char) (cur b : List Char),
      tokAux cur (a ++ ' ' :: b) = tokAux cur a ++ tokAux [] b := by
  intro a
  induction a with
  | nil =>
    intro cur b
    simp only [List.nil_append, tokAux]
    have : isWsB ' ' = true := by decide
    simp only [this, if_true]
    by_cases hc : cur = []
    · simp [hc, tokAux]
    · simp [hc, tokAux]
  | cons x a ih =>
    intro cur b
    simp only [List.cons_append, tokAux, List.append_eq]
    by_cases hx : isWsB x = true
    · simp only [hx, if_true]
      by_cases hc : cur = []
      · simp only [hc, if_true]
        exact ih [] b
      · simp only [hc, if_false]
        rw [ih [] b]
        simp
    · simp only [Bool.not_eq_true] at hx
      simp only [hx, Bool.false_eq_true, if_false]
      rw [ih (x :: cur) b]

theorem tokenizeWs_append_space (a b : List Char) :
    tokenizeWs (a ++ ' ' :: b) = tokenizeWs a ++ tokenizeWs b :=
  tokAux_append_space a [] b

theorem isAlphaB_not_ws (c : Char) (h : isAlphaB c = true) : isWsB c = false := by
  rcases Bool.eq_false_or_eq_true (isWsB c) with hw | hw
  · exfalso
    have hlist : c = ' ' ∨ c = '\t' ∨ c = '\n' ∨ c = '\r' ∨ c = '\x0b' ∨
        c = '\x0c' ∨ c = '\u00A0' := by
      simpa [isWsB, or_assoc] using hw
    rcases hlist with rfl | rfl | rfl | rfl | rfl | rfl | rfl <;>
      exact absurd h (by decide)
  · exact hw

theorem isDigitB_not_ws (c : Char) (h : isDigitB c = true) : isWsB c = false := by
  rcases Bool.eq_false_or_eq_true (isWsB c) with hw | hw
  · exfalso
    have hlist : c = ' ' ∨ c = '\t' ∨ c = '\n' ∨ c = '\r' ∨ c = '\x0b' ∨
        c = '\x0c' ∨ c = '\u00A0' := by
      simpa [isWsB, or_assoc] using hw
    rcases hlist with rfl | rfl | rfl | rfl | rfl | rfl | rfl <;>
      exact absurd h (by decide)
  · exact hw

theorem searchGo_some (att : List Char → Option α) :
    ∀ (fuel : Nat) (l : List Char) (v : α),
      searchGo att fuel l = some v → ∃ l', att l' = some v := by
  intro fuel
  induction fuel with
  | zero => intro l v h; cases h
  | succ fuel ih =>
    intro l v h
    simp only [searchGo] at h
    rcases ha : att l with _ | w
    · rw [ha] at h
      cases l with
      | nil => cases h
      | cons c t => exact ih t v h
    · rw [ha] at h
      injection h with h
      exact ⟨l, by rw [ha, h]⟩

theorem searchIn_some (att : List Char → Option α) (l : List Char) (v : α)
    (h : searchIn att l = some v) : ∃ l', att l' = some v :=
  searchGo_some att _ l v h

theorem attDate_shape (l : List Char) (g r : List Char)
    (h : attDate l = some (g, r)) :
    ∃ w sp1 m sp2 dd sp3 yy : List Char,
      g = w ++ ',' :: (sp1 ++ (m ++ (sp2 ++ (dd ++ ',' :: (sp3 ++ yy))))) ∧
      w ≠ [] ∧ (∀ c ∈ w, isAlphaB c = true) ∧
      sp1 ≠ [] ∧ (∀ c ∈ sp1, isWsB c = true) ∧
      m ≠ [] ∧ (∀ c ∈ m, isAlphaB c = true) ∧
      sp2 ≠ [] ∧ (∀ c ∈ sp2, isWsB c = true) ∧
      dd ≠ [] ∧ (∀ c ∈ dd, isDigitB c = true) ∧
      sp3 ≠ [] ∧ (∀ c ∈ sp3, isWsB c = true) ∧
      yy.length = 4 ∧ (∀ c ∈ yy, isDigitB c = true) := by
  simp only [attDate] at h
  repeat' split at h
  all_goals (try cases h)
  rename_i hw c1 r2 heq1 hsp1 hm hsp2 hdd c2 r7 heq2 hsp3 hyy
  have hlen : (List.take 4 (spanP isWsB r7).2).length = 4 :=
    of_decide_eq_true ((Bool.and_eq_true ..).mp hyy).1
  have hdig : ∀ c ∈ List.take 4 (spanP isWsB r7).2, isDigitB c = true :=
    List.all_eq_true.mp ((Bool.and_eq_true ..).mp hyy).2
  exact ⟨_, _, _, _, _, _, _, by simp, hw, spanP_fst_all _ _, hsp1,
    spanP_fst_all _ _, hm, spanP_fst_all _ _, hsp2, spanP_fst_all _ _,
    hdd, spanP_fst_all _ _, hsp3, spanP_fst_all _ _, hlen, hdig⟩

theorem attTime_shape (l : List Char) (g r : List Char)
    (h : attTime l = some (g, r)) :
    ∃ hh mm sp : List Char, ∃ a : Char,
      g = hh ++ ':' :: (mm ++ (sp ++ [a, 'M'])) ∧
      hh ≠ [] ∧ (∀ c ∈ hh, isDigitB c = true) ∧
      mm ≠ [] ∧ (∀ c ∈ mm, isDigitB c = true) ∧
      sp ≠ [] ∧ (∀ c ∈ sp, isWsB c = true) ∧
      (a = 'A' ∨ a = 'P') := by
  simp only [attTime] at h
  repeat' split at h
  all_goals (try cases h)
  rename_i hhh c1 r2 heq1 hmm hsp rst av hguard heq2
  refine ⟨_, _, _, av, by simp, hhh, spanP_fst_all _ _, hmm,
    spanP_fst_all _ _, hsp, spanP_fst_all _ _, ?_⟩
  simpa [Bool.or_eq_true] using hguard

theorem tokenizeWs_date_group (w sp1 m sp2 dd sp3 yy : List Char)
    (hw0 : w ≠ []) (hw : ∀ c ∈ w, isAlphaB c = true)
    (hsp1 : sp1 ≠ []) (hs1 : ∀ c ∈ sp1, isWsB c = true)
    (hm0 : m ≠ []) (hm : ∀ c ∈ m, isAlphaB c = true)
    (hsp2 : sp2 ≠ []) (hs2 : ∀ c ∈ sp2, isWsB c = true)
    (hdd0 : dd ≠ []) (hdd : ∀ c ∈ dd, isDigitB c = true)
    (hsp3 : sp3 ≠ []) (hs3 : ∀ c ∈ sp3, isWsB c = true)
    (hyy0 : yy ≠ []) (hyy : ∀ c ∈ yy, isDigitB c = true) :
    tokenizeWs (w ++ ',' :: (sp1 ++ (m ++ (sp2 ++ (dd ++ ',' :: (sp3 ++ yy)))))) =
      [w ++ [','], m, dd ++ [','], yy] := by
  have hwc : ∀ c ∈ w ++ [','], isWsB c = false := by
    intro c hc
    rcases List.mem_append.mp hc with h | h
    · exact isAlphaB_not_ws c (hw c h)
    · simp only [List.mem_singleton] at h
      subst h; decide
  have hdc : ∀ c ∈ dd ++ [','], isWsB c = false := by
    intro c hc
    rcases List.mem_append.mp hc with h | h
    · exact isDigitB_not_ws c (hdd c h)
    · simp only [List.mem_singleton] at h
      subst h; decide
  have hmc : ∀ c ∈ m, isWsB c = false := fun c h => isAlphaB_not_ws c (hm c h)
  have hyc : ∀ c ∈ yy, isWsB c = false := fun c h => isDigitB_not_ws c (hyy c h)
  have e1 : w ++ ',' :: (sp1 ++ (m ++ (sp2 ++ (dd ++ ',' :: (sp3 ++ yy))))) =
      (w ++ [',']) ++ (sp1 ++ (m ++ (sp2 ++ ((dd ++ [',']) ++ (sp3 ++ yy))))) := by
    simp
  rw [e1]
  show tokAux [] _ = _
  rw [tokAux_block (w ++ [',']) sp1 _ hwc (by simp) hs1 hsp1]
  rw [tokAux_block m sp2 _ hmc hm0 hs2 hsp2]
  rw [tokAux_block (dd ++ [',']) sp3 _ hdc (by simp) hs3 hsp3]
  rw [tokAux_last yy hyc hyy0]

theorem tokenizeWs_time_group (hh mm sp : List Char) (a : Char)
    (hh0 : hh ≠ []) (hhd : ∀ c ∈ hh, isDigitB c = true)
    (hmm0 : mm ≠ []) (hmmd : ∀ c ∈ mm, isDigitB c = true)
    (hsp0 : sp ≠ []) (hspw : ∀ c ∈ sp, isWsB c = true)
    (ha : a = 'A' ∨ a = 'P') :
    tokenizeWs (hh ++ ':' :: (mm ++ (sp ++ [a, 'M']))) =
      [hh ++ ':' :: mm, [a, 'M']] := by
  have hblk : ∀ c ∈ hh ++ ':' :: mm, isWsB c = false := by
    intro c hc
    rcases List.mem_append.mp hc with h | h
    · exact isDigitB_not_ws c (hhd c h)
    · rcases List.mem_cons.mp h with h | h
      · subst h; decide
      · exact isDigitB_not_ws c (hmmd c h)
  have ham : ∀ c ∈ [a, 'M'], isWsB c = false := by
    intro c hc
    rcases List.mem_cons.mp hc with h | h
    · subst h
      rcases ha with rfl | rfl <;> decide
    · simp only [List.mem_singleton] at h
      subst h; decide
  have e1 : hh ++ ':' :: (mm ++ (sp ++ [a, 'M'])) =
      (hh ++ ':' :: mm) ++ (sp ++ [a, 'M']) := by simp
  rw [e1]
  show tokAux [] _ = _
  rw [tokAux_block (hh ++ ':' :: mm) sp _ hblk (by simp [hh0]) hspw hsp0]
  rw [tokAux_last [a, 'M'] ham (by simp)]

theorem strptimeE_ok (l : List Char) (v : DT) :
    strptimeE l = .ok v ↔ strptimeL l = some v := by
  unfold strptimeE
  cases strptimeL l <;> simp

theorem strptimeL_eq (l : List Char) (t1 t2 t3 t4 t5 t6 : List Char) (c : Char)
    (hhead : l.head? = some c) (hc : isWsB c = false)
    (hlast : ∀ z, l.getLast? = some z → isWsB z = false)
    (htoks : tokenizeWs l = [t1, t2, t3, t4, t5, t6]) :
    strptimeL l =
      (match parseDateToks t1 t2 t3 t4, parseTimeToks t5 t6 with
       | some (y, mo, d), some (h, mi) => some ⟨y, mo, d, h, mi⟩
       | _, _ => none) := by
  cases l with
  | nil => cases hhead
  | cons c0 rest =>
    have hc0 : c0 = c := by
      simp only [List.head?] at hhead
      injection hhead
    subst hc0
    have hex : ∃ z, (c0 :: rest).getLast? = some z := by
      cases hgl : (c0 :: rest).getLast? with
      | some z => exact ⟨z, rfl⟩
      | none => simp at hgl
    obtain ⟨z, hz⟩ := hex
    have hzw : isWsB z = false := hlast z hz
    simp only [strptimeL, hc, Bool.false_eq_true, if_false, hz, hzw, htoks]
    try rfl

theorem strptime_pair (w sp1 m sp2 dd sp3 yy hh mm sp : List Char) (a : Char)
    (hw0 : w ≠ []) (hw : ∀ c ∈ w, isAlphaB c = true)
    (hsp1 : sp1 ≠ []) (hs1 : ∀ c ∈ sp1, isWsB c = true)
    (hm0 : m ≠ []) (hm : ∀ c ∈ m, isAlphaB c = true)
    (hsp2 : sp2 ≠ []) (hs2 : ∀ c ∈ sp2, isWsB c = true)
    (hdd0 : dd ≠ []) (hdd : ∀ c ∈ dd, isDigitB c = true)
    (hsp3 : sp3 ≠ []) (hs3 : ∀ c ∈ sp3, isWsB c = true)
    (hyy0 : yy ≠ []) (hyy : ∀ c ∈ yy, isDigitB c = true)
    (hh0 : hh ≠ []) (hhd : ∀ c ∈ hh, isDigitB c = true)
    (hmm0 : mm ≠ []) (hmmd : ∀ c ∈ mm, isDigitB c = true)
    (hsp0 : sp ≠ []) (hspw : ∀ c ∈ sp, isWsB c = true)
    (ha : a = 'A' ∨ a = 'P') :
    strptimeL ((w ++ ',' :: (sp1 ++ (m ++ (sp2 ++ (dd ++ ',' :: (sp3 ++ yy)))))) ++
        ' ' :: (hh ++ ':' :: (mm ++ (sp ++ [a, 'M'])))) =
      (match parseDateToks (w ++ [',']) m (dd ++ [',']) yy,
             parseTimeToks (hh ++ ':' :: mm) [a, 'M'] with
       | some (y, mo, d), some (h, mi) => some ⟨y, mo, d, h, mi⟩
       | _, _ => none) := by
  cases w with
  | nil => cases hw0 rfl
  | cons c w' =>
    have hcw : isAlphaB c = true := hw c (by simp)
    apply strptimeL_eq _ _ _ _ _ _ _ c
    · simp
    · exact isAlphaB_not_ws c hcw
    · intro z hz
      have e : ((c :: w') ++ ',' :: (sp1 ++ (m ++ (sp2 ++ (dd ++ ',' :: (sp3 ++ yy)))))) ++
          ' ' :: (hh ++ ':' :: (mm ++ (sp ++ [a, 'M']))) =
          (((c :: w') ++ ',' :: (sp1 ++ (m ++ (sp2 ++ (dd ++ ',' :: (sp3 ++ yy)))))) ++
            ' ' :: (hh ++ ':' :: (mm ++ (sp ++ [a])))) ++ ['M'] := by
        simp
      rw [e, List.getLast?_concat] at hz
      injection hz with hz
      subst hz
      decide
    · rw [tokenizeWs_append_space]
      rw [tokenizeWs_date_group _ _ _ _ _ _ _ (by simp) hw hsp1 hs1 hm0 hm
        hsp2 hs2 hdd0 hdd hsp3 hs3 hyy0 hyy]
      rw [tokenizeWs_time_group _ _ _ _ hh0 hhd hmm0 hmmd hsp0 hspw ha]
      rfl

/-- C2 (counterexample): the same-day input 9:00 PM to 2:00 AM matches
pattern 1 and parses, but the end falls before the start on the same date,
refuting the claimed strict start-before-end ordering. -/
theorem claim_C2_counterexample :
    parse_datetime (some "Mon, Nov 3, 2025 9:00 PM – 2:00 AM") =
      (some ⟨2025, 11, 3, 21, 0⟩, some ⟨2025, 11, 3, 2, 0⟩,
       some "Mon, Nov 3, 2025 9:00 PM – 2:00 AM") ∧
    ¬ DT.lt ⟨2025, 11, 3, 21, 0⟩ ⟨2025, 11, 3, 2, 0⟩ :=
  ⟨by decide, by decide⟩

/-- C2: every input matched by the same-day pattern whose two time
substrings both parse yields a start and an end on the same calendar date,
with start before end exactly when the start time of day precedes the end
time of day; the concrete scenario evaluates to 2025-11-03 17:30 and
2025-11-03 19:30 with the original markup preserved. -/
theorem claim_C2_same_day :
    (∀ (s : String) (g1 g2 g3 : List Char) (sd ed : DT),
      searchIn attemptP1 (cleanHtml s.data) = some (g1, g2, g3) →
      strptimeE (g1 ++ ' ' :: g2) = .ok sd →
      strptimeE (g1 ++ ' ' :: g3) = .ok ed →
      (sd.year = ed.year ∧ sd.month = ed.month ∧ sd.day = ed.day) ∧
      (DT.lt sd ed ↔ sd.hour * 60 + sd.minute < ed.hour * 60 + ed.minute)) ∧
    parse_datetime (some "<p>Mon, Nov 3, 2025</p><p>5:30 PM – 7:30 PM</p>") =
      (some ⟨2025, 11, 3, 17, 30⟩, some ⟨2025, 11, 3, 19, 30⟩,
       some "<p>Mon, Nov 3, 2025</p><p>5:30 PM – 7:30 PM</p>") := by
  constructor
  · intro s g1 g2 g3 sd ed hsearch hsd hed
    obtain ⟨l2, hatt⟩ := searchIn_some _ _ _ hsearch
    simp only [attemptP1, Option.bind_eq_bind, Option.bind_eq_some,
      Option.pure_def, Option.some.injEq] at hatt
    obtain ⟨⟨gg1, r1⟩, hd1, r2, hws1, ⟨gg2, r3⟩, ht1, r4, hws2, r5, hdash, r6,
      hws3, ⟨gg3, r7⟩, ht2, heq⟩ := hatt
    have e1 : gg1 = g1 := congrArg (fun p => p.1) heq
    have e2 : gg2 = g2 := congrArg (fun p => p.2.1) heq
    have e3 : gg3 = g3 := congrArg (fun p => p.2.2) heq
    subst e1; subst e2; subst e3
    obtain ⟨w, sp1, m, sp2, dd, sp3, yy, hg1, hw0, hw, hsp1, hs1, hm0, hm,
      hsp2, hs2, hdd0, hdd, hsp3, hs3, hyylen, hyy⟩ := attDate_shape _ _ _ hd1
    obtain ⟨hh2, mm2, spb, ab, hg2, hh20, hh2d, hmm20, hmm2d, hsp20, hsp2w, hab⟩ :=
      attTime_shape _ _ _ ht1
    obtain ⟨hh3, mm3, spc, ac, hg3, hh30, hh3d, hmm30, hmm3d, hsp30, hsp3w, hac⟩ :=
      attTime_shape _ _ _ ht2
    have hyy0 : yy ≠ [] := by
      intro hx
      rw [hx] at hyylen
      cases hyylen
    rw [strptimeE_ok] at hsd hed
    rw [hg1, hg2] at hsd
    rw [hg1, hg3] at hed
    rw [strptime_pair _ _ _ _ _ _ _ _ _ _ _ hw0 hw hsp1 hs1 hm0 hm hsp2 hs2
      hdd0 hdd hsp3 hs3 hyy0 hyy hh20 hh2d hmm20 hmm2d hsp20 hsp2w hab] at hsd
    rw [strptime_pair _ _ _ _ _ _ _ _ _ _ _ hw0 hw hsp1 hs1 hm0 hm hsp2 hs2
      hdd0 hdd hsp3 hs3 hyy0 hyy hh30 hh3d hmm30 hmm3d hsp30 hsp3w hac] at hed
    rcases hdt : parseDateToks (w ++ [',']) m (dd ++ [',']) yy with _ | ⟨y, mo, d⟩
    · rw [hdt] at hsd
      cases hsd
    · rw [hdt] at hsd hed
      rcases htb : parseTimeToks (hh2 ++ ':' :: mm2) [ab, 'M'] with _ | ⟨h1, mi1⟩
      · rw [htb] at hsd
        cases hsd
      · rw [htb] at hsd
        rcases htc : parseTimeToks (hh3 ++ ':' :: mm3) [ac, 'M'] with _ | ⟨h2, mi2⟩
        · rw [htc] at hed
          cases hed
        · rw [htc] at hed
          injection hsd with hsd
          injection hed with hed
          subst hsd
          subst hed
          refine ⟨⟨rfl, rfl, rfl⟩, ?_⟩
          simp only [DT.lt, DT.key]
          omega
  · decide

theorem claim_C2_witness :
    ((⟨2025, 11, 3, 17, 30⟩ : DT).year = (⟨2025, 11, 3, 19, 30⟩ : DT).year ∧
     (⟨2025, 11, 3, 17, 30⟩ : DT).month = (⟨2025, 11, 3, 19, 30⟩ : DT).month ∧
     (⟨2025, 11, 3, 17, 30⟩ : DT).day = (⟨2025, 11, 3, 19, 30⟩ : DT).day) ∧
    (DT.lt ⟨2025, 11, 3, 17, 30⟩ ⟨2025, 11, 3, 19, 30⟩ ↔
      (⟨2025, 11, 3, 17, 30⟩ : DT).hour * 60 + (⟨2025, 11, 3, 17, 30⟩ : DT).minute <
      (⟨2025, 11, 3, 19, 30⟩ : DT).hour * 60 + (⟨2025, 11, 3, 19, 30⟩ : DT).minute) :=
  claim_C2_same_day.1 "<p>Mon, Nov 3, 2025</p><p>5:30 PM – 7:30 PM</p>"
    "Mon, Nov 3, 2025".data "5:30 PM".data "7:30 PM".data
    ⟨2025, 11, 3, 17, 30⟩ ⟨2025, 11, 3, 19, 30⟩
    (by decide) (by rw [strptimeE_ok]; decide) (by rw [strptimeE_ok]; decide)

end LoadData
